import Mathlib

/-!
Verification development for the `env` package (src/env.go): an
annotation-driven engine that populates the fields of a structured record
from process environment variables.

The embedding below translates the Go source into Lean definitions:
  * the process environment store (an external collaborator of the
    package) is modelled as an association list `EnvMap`, with
    `lookupEnv` playing the role of `os.LookupEnv`;
  * the Go standard library helpers the source calls (`strings.Split`,
    `strings.Join`, `strings.ToLower`, `strconv.ParseInt`,
    `strconv.ParseBool`) are modelled by executable Lean functions with
    the same observable behaviour, including the exact error messages of
    `strconv.NumError`;
  * `os.ExpandEnv` is treated as the supplied external capability it is
    in the design and passed to the engine as an explicit function
    argument `expand`;
  * reflective struct values are modelled by the deep value universe
    `Value`/`Fields` covering strings, booleans, 32- and 64-bit signed
    integers, slices of each, plain struct values and pointers.  The
    float, duration, URL and `encoding.TextUnmarshaler` branches of the
    conversion matrix fall outside this universe; none of the modelled
    types implements `encoding.TextUnmarshaler`, so the corresponding
    fallback branches always fail, exactly as they do in Go for such
    types.
Errors are modelled by their message strings, which is faithful because
the package only ever aggregates and compares error messages.
-/

namespace Env

/-- The process environment table, modelled as an association list from
keys to values.  The first binding for a key wins, mirroring a snapshot
of the host environment store. -/
abbrev EnvMap := List (String × String)

/-- Models `os.LookupEnv`: the value bound to `key`, or `none` when the
key is unset.  A key set to the empty string yields `some ""`. -/
def lookupEnv (env : EnvMap) (key : String) : Option String :=
  match env.find? (fun p => p.1 == key) with
  | some p => some p.2
  | none => none

/-- Embeds `Get` from env.go: the value of the variable, or the empty string
when it does not exist (`os.Getenv` semantics). -/
def Get (env : EnvMap) (key : String) : String :=
  match lookupEnv env key with
  | some value => value
  | none => ""

/-- Embeds `GetOr` from env.go: the value of the variable, or `defaultValue`
when it does not exist. -/
def GetOr (env : EnvMap) (key defaultValue : String) : String :=
  match lookupEnv env key with
  | some value => value
  | none => defaultValue

/-- Outcome of `MustGet`: either the returned string or the message of
the panic the Go function raises. -/
inductive MustGetResult where
  | value (s : String)
  | panicked (msg : String)
  deriving DecidableEq, Repr

/-- Models the Go formatting verb `%q` applied to a string without
characters that need escaping: the string wrapped in double quotes. -/
def quoteGo (s : String) : String := "\"" ++ s ++ "\""

/-- Embeds `MustGet` from env.go: the value of the variable when it exists
(even when empty), otherwise a panic.  The `defaultValue` parameter is
declared by the source but never used by its body. -/
def MustGet (env : EnvMap) (key defaultValue : String) : MustGetResult :=
  match lookupEnv env key with
  | some value => .value value
  | none =>
    .panicked ("expected environment variable " ++ quoteGo key ++ " does not exist")

/-! ### Models of the Go standard library helpers used by the source -/

/-- Worker for `splitGo`.  The fuel argument only serves to make the
recursion structural; `splitGo` supplies one unit of fuel per character,
which is enough because every step with a nonempty separator consumes at
least one character. -/
def splitGoAux (sep : List Char) : Nat → List Char → List Char → List (List Char)
  | _, [], acc => [acc.reverse]
  | 0, cs, acc => [acc.reverse ++ cs]
  | fuel + 1, c :: rest, acc =>
    if sep.isPrefixOf (c :: rest) then
      acc.reverse :: splitGoAux sep fuel (List.drop sep.length (c :: rest)) []
    else
      splitGoAux sep fuel rest (c :: acc)

/-- Models `strings.Split` for a nonempty separator: the substrings
between non-overlapping occurrences of `sep`, scanned left to right,
with empty substrings preserved.  `strings.Split s sep` never returns an
empty list; on the empty string it returns `[""]`.  The source never
calls it with an empty separator (`handleSlice` substitutes `","`
first and the tag separator of `parseKeyForOption` is `","`). -/
def splitGo (s sep : String) : List String :=
  if sep = "" then [s]
  else (splitGoAux sep.data (s.data.length + 1) s.data []).map (fun l => String.mk l)

/-- Models `strings.Join`: the elements concatenated with `sep` between
consecutive elements. -/
def joinGo (elems : List String) (sep : String) : String :=
  match elems with
  | [] => ""
  | e :: rest => rest.foldl (fun acc x => acc ++ sep ++ x) e

/-- Models `strings.ToLower`, mapping the character conversion over the
string. -/
def toLowerGo (s : String) : String := String.mk (s.data.map Char.toLower)

/-- The message of a `strconv.NumError`, as produced by its `Error`
method: `strconv.<fn>: parsing <quoted literal>: <reason>`. -/
def numErrorMsg (fn num reason : String) : String :=
  "strconv." ++ fn ++ ": parsing " ++ quoteGo num ++ ": " ++ reason

/-- The value of a nonempty run of decimal digits; `none` when the list
is empty or contains a character other than an ASCII digit. -/
def digitsVal (cs : List Char) : Option Nat :=
  if cs.isEmpty then none
  else
    cs.foldl
      (fun acc c =>
        match acc with
        | none => none
        | some n => if c.isDigit then some (n * 10 + (c.toNat - 48)) else none)
      (some 0)

namespace strconv

/-- Models `strconv.ParseInt(s, 10, bitSize)`: an optional sign followed
by a nonempty run of decimal digits, with the value required to fit in a
signed integer of `bitSize` bits; on failure, the error message of the
corresponding `strconv.NumError`. -/
def ParseInt (s : String) (bitSize : Nat) : Except String Int :=
  let signed : Bool × List Char :=
    match s.data with
    | '+' :: r => (false, r)
    | '-' :: r => (true, r)
    | r => (false, r)
  match digitsVal signed.2 with
  | none => .error (numErrorMsg "ParseInt" s "invalid syntax")
  | some n =>
    let v : Int := if signed.1 then -(n : Int) else (n : Int)
    if v < -(2 ^ (bitSize - 1) : Int) ∨ v > (2 ^ (bitSize - 1) : Int) - 1 then
      .error (numErrorMsg "ParseInt" s "value out of range")
    else
      .ok v

/-- Models `strconv.ParseBool`: the fixed lexicon of accepted literals;
anything else is a syntax error. -/
def ParseBool (s : String) : Except String Bool :=
  match s with
  | "1" | "t" | "T" | "true" | "TRUE" | "True" => .ok true
  | "0" | "f" | "F" | "false" | "FALSE" | "False" => .ok false
  | _ => .error (numErrorMsg "ParseBool" s "invalid syntax")

end strconv

/-! ### The data model: field metadata and reflective struct values -/

/-- The tag view of one struct field, the four struct tags the engine
reads from `reflect.StructField`: the `env` tag (key plus comma
separated options), `envDefault`, `envExpand` and `envSeparator`. -/
structure FieldMeta where
  envTag : String
  envDefault : String
  envExpand : String
  envSeparator : String
  deriving DecidableEq, Repr

/-- Type identifiers for the modelled universe, used as the keys of the
custom conversion registry (`reflect.Type` in the source).  All struct
types are merged into `structT` and all pointer types into `ptrT`; this
is coarser than `reflect.Type`, which is harmless here because no
theorem below registers a custom converter for a struct or pointer
type. -/
inductive Ty where
  | str
  | bool
  | int
  | int64
  | sliceStr
  | sliceInt
  | sliceInt64
  | sliceBool
  | structT
  | ptrT
  deriving DecidableEq, Repr

mutual
/-- A reflective Go value of the modelled universe.  `vPtrNil zero` is a
nil pointer whose element type has zero value `zero` (the zero value
stands for the static element type, which is exactly what
`reflect.New` needs); `vPtr pointee` is a non-nil pointer. -/
inductive Value where
  | vStr (s : String)
  | vBool (b : Bool)
  | vInt (n : Int)
  | vInt64 (n : Int)
  | vStrSlice (xs : List String)
  | vIntSlice (xs : List Int)
  | vInt64Slice (xs : List Int)
  | vBoolSlice (xs : List Bool)
  | vStruct (fields : Fields)
  | vPtrNil (zero : Value)
  | vPtr (pointee : Value)

/-- The field list of a struct value, in declaration order.  Each field
carries its `CanSet` flag (false for unexported fields), its tag
metadata and its current value. -/
inductive Fields where
  | nil
  | cons (canSet : Bool) (meta : FieldMeta) (v : Value) (rest : Fields)
end

/-- The static type identifier of a value, standing for
`reflect.StructField.Type` of the field holding it. -/
def Value.ty : Value → Ty
  | .vStr _ => .str
  | .vBool _ => .bool
  | .vInt _ => .int
  | .vInt64 _ => .int64
  | .vStrSlice _ => .sliceStr
  | .vIntSlice _ => .sliceInt
  | .vInt64Slice _ => .sliceInt64
  | .vBoolSlice _ => .sliceBool
  | .vStruct _ => .structT
  | .vPtrNil _ => .ptrT
  | .vPtr _ => .ptrT

/-- Holds when `reflect.Ptr == v.Kind() && !v.IsNil()`: a non-nil pointer. -/
def Value.isNonNilPtr : Value → Bool
  | .vPtr _ => true
  | _ => false

/-- Whether the value is a non-nil pointer whose pointee is a struct,
the shape the entry points accept. -/
def Value.isPtrToStruct : Value → Bool
  | .vPtr (.vStruct _) => true
  | _ => false

/-- Whether the value is a struct value (`reflect.Struct` kind). -/
def Value.isStructVal : Value → Bool
  | .vStruct _ => true
  | _ => false

/-- Appends two field lists. -/
def Fields.append : Fields → Fields → Fields
  | .nil, g => g
  | .cons c m v r, g => .cons c m v (Fields.append r g)

/-- Builds a field list from a plain list of (CanSet, metadata, value)
triples; used to state theorems with list combinators. -/
def Fields.ofList : List (Bool × FieldMeta × Value) → Fields
  | [] => .nil
  | (c, m, v) :: r => .cons c m v (Fields.ofList r)

/-! ### Errors (modelled by their messages) and the conversion registry -/

/-- Message of `ErrNotAStructPtr`. -/
def ErrNotAStructPtr : String := "Expected a pointer to a Struct"

/-- Message of `ErrUnsupportedType`. -/
def ErrUnsupportedType : String := "Type is not supported"

/-- Message of `ErrUnsupportedSliceType`. -/
def ErrUnsupportedSliceType : String := "Unsupported slice type"

/-- Embeds `ParserFunc` from env.go: a custom converter from the raw string to
a value or an error. -/
abbrev ParserFunc := String → Except String Value

/-- Embeds `CustomParsers` from env.go: the custom converter registry, a map
from type identifiers to converter functions. -/
abbrev CustomParsers := List (Ty × ParserFunc)

/-- Lookup in the custom converter registry (`funcMap[refType.Type]`). -/
def lookupParser (funcMap : CustomParsers) (t : Ty) : Option ParserFunc :=
  match funcMap.find? (fun p => p.1 == t) with
  | some p => some p.2
  | none => none

/-! ### The field resolver: `get` and its helpers -/

/-- Embeds `parseKeyForOption` from env.go: splits the `env` tag on commas into
the key and the option list. -/
def parseKeyForOption (key : String) : String × List String :=
  match splitGo key "," with
  | [] => ("", [])
  | k :: opts => (k, opts)

/-- Embeds `getOrWithPrefix` from env.go: the environment value at the
prefixed key, or the default when the key is unset. -/
def getOrWithPrefix (env : EnvMap) (key pfx defaultValue : String) : String :=
  match lookupEnv env (pfx ++ key) with
  | some value => value
  | none => defaultValue

/-- Embeds `getRequired` from env.go: the environment value at the prefixed
key, or an error citing the declared (unprefixed) key when it is unset.
A key set to the empty string succeeds. -/
def getRequired (env : EnvMap) (key pfx : String) : String × Option String :=
  match lookupEnv env (pfx ++ key) with
  | some value => (value, none)
  | none =>
    ("", some ("required environment variable " ++ quoteGo key ++ " is not set"))

/-- One iteration of the option loop of `get`: the empty token is
skipped, `required` re-resolves the value ignoring the default, and any
other token replaces the error with an option-not-supported message
while keeping the value. -/
def optStep (env : EnvMap) (key pfx : String) (acc : String × Option String)
    (opt : String) : String × Option String :=
  match opt with
  | "" => acc
  | "required" => getRequired env key pfx
  | _ => (acc.1, some ("env tag option " ++ quoteGo opt ++ " not supported"))

/-- Embeds `get` from env.go: resolves one field to its raw string.  Computes
the effective value from the environment at the prefixed key with the
`envDefault` fallback, optionally applies environment expansion (the
`expand` argument stands for `os.ExpandEnv`, an external capability),
then folds the option loop over the comma separated options of the
`env` tag. -/
def get (env : EnvMap) (expand : String → String) (field : FieldMeta)
    (pfx : String) : String × Option String :=
  let key := (parseKeyForOption field.envTag).1
  let opts := (parseKeyForOption field.envTag).2
  let val := getOrWithPrefix env key pfx field.envDefault
  let val := if toLowerGo field.envExpand == "true" then expand val else val
  opts.foldl (optStep env key pfx) (val, none)

/-! ### The conversion layer: `set`, `handleSlice` and the element
parsers -/

/-- Embeds `parseInts` from env.go: converts every element with
`strconv.ParseInt(v, 10, 32)`, stopping at the first failure. -/
def parseInts : List String → Except String (List Int)
  | [] => .ok []
  | v :: rest =>
    match strconv.ParseInt v 32 with
    | .error e => .error e
    | .ok n =>
      match parseInts rest with
      | .error e => .error e
      | .ok ns => .ok (n :: ns)

/-- Embeds `parseInt64s` from env.go: like `parseInts` with 64-bit range. -/
def parseInt64s : List String → Except String (List Int)
  | [] => .ok []
  | v :: rest =>
    match strconv.ParseInt v 64 with
    | .error e => .error e
    | .ok n =>
      match parseInt64s rest with
      | .error e => .error e
      | .ok ns => .ok (n :: ns)

/-- Embeds `parseBools` from env.go: converts every element with
`strconv.ParseBool`, stopping at the first failure. -/
def parseBools : List String → Except String (List Bool)
  | [] => .ok []
  | v :: rest =>
    match strconv.ParseBool v with
    | .error e => .error e
    | .ok b =>
      match parseBools rest with
      | .error e => .error e
      | .ok bs => .ok (b :: bs)

/-- Embeds `handleSlice` from env.go restricted to the modelled universe:
substitutes the comma for an empty separator, splits the raw value and
dispatches on the slice type.  The float, duration, URL and
text-unmarshaler slice branches are outside the universe; for any value
that is not one of the modelled slices the default branch fails with
`ErrUnsupportedSliceType`, as the Go default branch does for slice
element types without `encoding.TextUnmarshaler`. -/
def handleSlice (field : Value) (value separator : String) : Except String Value :=
  let separator := if separator = "" then "," else separator
  let splitData := splitGo value separator
  match field with
  | .vStrSlice _ => .ok (.vStrSlice splitData)
  | .vIntSlice _ =>
    match parseInts splitData with
    | .error e => .error e
    | .ok xs => .ok (.vIntSlice xs)
  | .vInt64Slice _ =>
    match parseInt64s splitData with
    | .error e => .error e
    | .ok xs => .ok (.vInt64Slice xs)
  | .vBoolSlice _ =>
    match parseBools splitData with
    | .error e => .error e
    | .ok xs => .ok (.vBoolSlice xs)
  | _ => .error ErrUnsupportedSliceType

/-- Embeds `handleTextUnmarshaler` from env.go for the modelled universe: the
function first replaces a nil pointer with a freshly allocated zero
element, then asserts `encoding.TextUnmarshaler`; no modelled type
implements that interface, so the assertion always fails with
`ErrUnsupportedType`.  The pair returned is the (possibly reallocated)
field together with the error. -/
def handleTextUnmarshaler (field : Value) (_value : String) : Value × Option String :=
  match field with
  | .vPtrNil zero => (.vPtr zero, some ErrUnsupportedType)
  | _ => (field, some ErrUnsupportedType)

/-- Embeds `set` from env.go: assigns the converted raw string to the field.
A custom parser registered for the exact field type takes precedence;
otherwise the builtin conversion dispatches on the reflective kind of
the field.  The `url.URL`, float, duration and unsigned branches are
outside the modelled universe; kinds with no builtin branch fall back to
`handleTextUnmarshaler`.  Returns the new field value (the old one when
conversion fails without side effects) and the error. -/
def set (field : Value) (refType : FieldMeta) (value : String)
    (funcMap : CustomParsers) : Value × Option String :=
  match lookupParser funcMap field.ty with
  | some parserFunc =>
    match parserFunc value with
    | .error e => (field, some ("Custom parser error: " ++ e))
    | .ok val => (val, none)
  | none =>
    match field with
    | .vStrSlice _ | .vIntSlice _ | .vInt64Slice _ | .vBoolSlice _ =>
      (match handleSlice field value refType.envSeparator with
       | .ok v => (v, none)
       | .error e => (field, some e))
    | .vStr _ => (.vStr value, none)
    | .vBool _ =>
      (match strconv.ParseBool value with
       | .ok b => (.vBool b, none)
       | .error e => (field, some e))
    | .vInt _ =>
      (match strconv.ParseInt value 32 with
       | .ok n => (.vInt n, none)
       | .error e => (field, some e))
    | .vInt64 _ =>
      (match strconv.ParseInt value 64 with
       | .ok n => (.vInt64 n, none)
       | .error e => (field, some e))
    | _ => handleTextUnmarshaler field value

/-! ### The population engine -/

mutual
/-- Embeds `ParseWithPrefixFuncs` from env.go: rejects anything that is not a
pointer to a struct with `ErrNotAStructPtr`, otherwise populates the
struct.  The body of `doParse` is inlined in the struct branch so that
the mutual recursion with `doParseFields` is structural; the standalone
`doParse` below restates it and `ParseWithPrefixFuncs_struct` records
the correspondence. -/
def ParseWithPrefixFuncs (env : EnvMap) (expand : String → String) (v : Value)
    (pfx : String) (funcMap : CustomParsers) : Value × Option String :=
  match v with
  | .vPtr (.vStruct s) =>
    (match doParseFields env expand s pfx funcMap with
     | (fields', errorList, none) =>
       (.vPtr (.vStruct fields'),
        if errorList.isEmpty then none else some (joinGo errorList ". "))
     | (fields', _, some err) => (.vPtr (.vStruct fields'), some err))
  | _ => (v, some ErrNotAStructPtr)

/-- The field loop of `doParse` from env.go.  Returns the updated field
list, the per-field error messages collected in declaration order, and
the fatal error of an aborting nested parse (`none` when the loop ran to
completion).  A non-nil settable pointer field is recursed into through
`Parse(refField.Interface())`, hence with the empty key prefix and an
empty custom registry, and its error aborts the loop immediately;
every other field goes through `get`, the empty-value skip, and `set`,
with errors collected.  The `OnEnvVarSet` hook is modelled as
unregistered, so the hook call after a successful `set` is a no-op. -/
def doParseFields (env : EnvMap) (expand : String → String) (fields : Fields)
    (pfx : String) (funcMap : CustomParsers) :
    Fields × List String × Option String :=
  match fields with
  | .nil => (.nil, [], none)
  | .cons canSet meta refField rest =>
    if Value.isNonNilPtr refField && canSet then
      match ParseWithPrefixFuncs env expand refField "" [] with
      | (refField', some err) => (.cons canSet meta refField' rest, [], some err)
      | (refField', none) =>
        match doParseFields env expand rest pfx funcMap with
        | (rest', errs, ab) => (.cons canSet meta refField' rest', errs, ab)
    else
      match get env expand meta pfx with
      | (_, some err) =>
        (match doParseFields env expand rest pfx funcMap with
         | (rest', errs, ab) => (.cons canSet meta refField rest', err :: errs, ab))
      | (value, none) =>
        if value = "" then
          match doParseFields env expand rest pfx funcMap with
          | (rest', errs, ab) => (.cons canSet meta refField rest', errs, ab)
        else
          match set refField meta value funcMap with
          | (refField', serr) =>
            match doParseFields env expand rest pfx funcMap with
            | (rest', errs, ab) =>
              (.cons canSet meta refField' rest', serr.toList ++ errs, ab)
end

/-- Embeds `doParse` from env.go: runs the field loop, then fails with the
error messages joined by the period-space separator when any were
collected, succeeds otherwise; a fatal error from an aborting nested
parse is returned as is, discarding the collected messages. -/
def doParse (env : EnvMap) (expand : String → String) (ref : Fields)
    (pfx : String) (funcMap : CustomParsers) : Fields × Option String :=
  match doParseFields env expand ref pfx funcMap with
  | (fields', errorList, none) =>
    (fields', if errorList.isEmpty then none else some (joinGo errorList ". "))
  | (fields', _, some err) => (fields', some err)

/-- Embeds `Parse` from env.go: `ParseWithPrefixFuncs` with the empty prefix
and an empty custom registry. -/
def Parse (env : EnvMap) (expand : String → String) (v : Value) :
    Value × Option String :=
  ParseWithPrefixFuncs env expand v "" []

/-- Embeds `ParseWithPrefix` from env.go. -/
def ParseWithPrefix (env : EnvMap) (expand : String → String) (v : Value)
    (pfx : String) : Value × Option String :=
  ParseWithPrefixFuncs env expand v pfx []

/-- Embeds `ParseWithFuncs` from env.go. -/
def ParseWithFuncs (env : EnvMap) (expand : String → String) (v : Value)
    (funcMap : CustomParsers) : Value × Option String :=
  ParseWithPrefixFuncs env expand v "" funcMap

/-- The struct-pointer branch of `ParseWithPrefixFuncs` agrees with the
standalone `doParse`. -/
theorem ParseWithPrefixFuncs_struct (env : EnvMap) (expand : String → String)
    (s : Fields) (pfx : String) (funcMap : CustomParsers) :
    ParseWithPrefixFuncs env expand (.vPtr (.vStruct s)) pfx funcMap =
      ((.vPtr (.vStruct (doParse env expand s pfx funcMap).1)),
        (doParse env expand s pfx funcMap).2) := by
  simp only [ParseWithPrefixFuncs, doParse]
  rcases doParseFields env expand s pfx funcMap with ⟨f, errs, ab⟩
  cases ab <;> simp

/-! ### Characterization helpers for the engine -/

/-- Any input that is not a non-nil pointer to a struct is rejected with
`ErrNotAStructPtr`, unchanged, whatever the environment, prefix and
registry. -/
theorem pwpf_reject (env : EnvMap) (expand : String → String) (v : Value)
    (pfx : String) (funcMap : CustomParsers)
    (h : Value.isPtrToStruct v = false) :
    ParseWithPrefixFuncs env expand v pfx funcMap = (v, some ErrNotAStructPtr) := by
  cases v <;> try rfl
  case vPtr pointee =>
    cases pointee <;> try rfl
    case vStruct s => simp [Value.isPtrToStruct] at h

/-- A non-nil pointer is a pointer to a struct exactly when its pointee
is a struct value. -/
theorem isPtrToStruct_vPtr (w : Value) :
    Value.isPtrToStruct (.vPtr w) = Value.isStructVal w := by
  cases w <;> rfl

/-- The outcome of processing one field of the loop in isolation: the
updated entry and the error the field contributes (for a settable
non-nil pointer field, the outcome of the nested parse; otherwise the
resolve/skip/convert path). -/
def processField (env : EnvMap) (expand : String → String) (pfx : String)
    (funcMap : CustomParsers) (e : Bool × FieldMeta × Value) :
    (Bool × FieldMeta × Value) × Option String :=
  match e with
  | (canSet, meta, refField) =>
    if Value.isNonNilPtr refField && canSet then
      match ParseWithPrefixFuncs env expand refField "" [] with
      | (refField', err) => ((canSet, meta, refField'), err)
    else
      match get env expand meta pfx with
      | (_, some err) => ((canSet, meta, refField), some err)
      | (value, none) =>
        if value = "" then ((canSet, meta, refField), none)
        else
          match set refField meta value funcMap with
          | (refField', serr) => ((canSet, meta, refField'), serr)

/-- Whether the field cannot abort the loop: it is not a settable
non-nil pointer field, or its nested parse succeeds. -/
def noAbort (env : EnvMap) (expand : String → String)
    (e : Bool × FieldMeta × Value) : Bool :=
  !(Value.isNonNilPtr e.2.2 && e.1) ||
    (ParseWithPrefixFuncs env expand e.2.2 "" []).2.isNone

/-- Prepends an entry triple to a field list. -/
def Fields.consEntry (e : Bool × FieldMeta × Value) (rest : Fields) : Fields :=
  .cons e.1 e.2.1 e.2.2 rest

theorem Fields.append_nil : (f : Fields) → Fields.append f .nil = f
  | .nil => rfl
  | .cons c m v r => by rw [Fields.append, Fields.append_nil r]

theorem Fields.ofList_append (a b : List (Bool × FieldMeta × Value)) :
    Fields.ofList (a ++ b) = Fields.append (Fields.ofList a) (Fields.ofList b) := by
  induction a with
  | nil => rfl
  | cons e r ih =>
    rcases e with ⟨c, m, v⟩
    simp [Fields.ofList, Fields.append, ih]

/-- A non-aborting field steps the loop by exactly its isolated
outcome: the updated entry is prepended, its error message (if any) is
prepended to the collected messages, and the rest of the loop is
unaffected. -/
theorem doParseFields_cons_ok (env : EnvMap) (expand : String → String)
    (pfx : String) (funcMap : CustomParsers) (c : Bool) (m : FieldMeta)
    (v : Value) (rest : Fields)
    (h : noAbort env expand (c, m, v) = true) :
    doParseFields env expand (.cons c m v rest) pfx funcMap =
      (Fields.consEntry (processField env expand pfx funcMap (c, m, v)).1
        (doParseFields env expand rest pfx funcMap).1,
       (processField env expand pfx funcMap (c, m, v)).2.toList ++
         (doParseFields env expand rest pfx funcMap).2.1,
       (doParseFields env expand rest pfx funcMap).2.2) := by
  simp only [doParseFields, processField]
  by_cases hp : (Value.isNonNilPtr v && c) = true
  · rw [noAbort] at h
    simp only at h
    rw [hp] at h
    simp only [Bool.not_true, Bool.false_or] at h
    rcases hr : ParseWithPrefixFuncs env expand v "" [] with ⟨v', e?⟩
    rw [hr] at h
    cases e? with
    | some e => simp at h
    | none =>
      simp only [hp, if_true]
      rcases hrest : doParseFields env expand rest pfx funcMap with ⟨r', errs, ab⟩
      simp [Fields.consEntry]
  · rw [Bool.not_eq_true] at hp
    simp only [hp, Bool.false_eq_true, if_false]
    rcases hg : get env expand m pfx with ⟨value, e?⟩
    cases e? with
    | some e =>
      rcases hrest : doParseFields env expand rest pfx funcMap with ⟨r', errs, ab⟩
      simp [Fields.consEntry]
    | none =>
      by_cases hv : value = ""
      · subst hv
        rcases hrest : doParseFields env expand rest pfx funcMap with ⟨r', errs, ab⟩
        simp [Fields.consEntry]
      · simp only [hv, if_false]
        rcases hs : set v m value funcMap with ⟨v', serr⟩
        rcases hrest : doParseFields env expand rest pfx funcMap with ⟨r', errs, ab⟩
        simp [Fields.consEntry]

/-- A settable non-nil pointer field whose nested parse fails aborts
the loop at once: the entry keeps the value the nested parse returned,
no messages are collected, the remaining fields are untouched, and the
nested error becomes the fatal outcome. -/
theorem doParseFields_cons_abort (env : EnvMap) (expand : String → String)
    (pfx : String) (funcMap : CustomParsers) (c : Bool) (m : FieldMeta)
    (v : Value) (rest : Fields) (e : String)
    (hptr : (Value.isNonNilPtr v && c) = true)
    (herr : (ParseWithPrefixFuncs env expand v "" []).2 = some e) :
    doParseFields env expand (.cons c m v rest) pfx funcMap =
      (.cons c m (ParseWithPrefixFuncs env expand v "" []).1 rest, [], some e) := by
  simp only [doParseFields, hptr, if_true]
  rcases hr : ParseWithPrefixFuncs env expand v "" [] with ⟨v', e?⟩
  rw [hr] at herr
  simp only at herr
  subst herr
  rfl

/-- A field that is not in the pointer branch and resolves to the empty
string is skipped entirely: left at its current value, contributing no
error and no conversion. -/
theorem doParseFields_skip (env : EnvMap) (expand : String → String)
    (pfx : String) (funcMap : CustomParsers) (c : Bool) (m : FieldMeta)
    (v : Value) (rest : Fields)
    (hord : (Value.isNonNilPtr v && c) = false)
    (hget : get env expand m pfx = ("", none)) :
    doParseFields env expand (.cons c m v rest) pfx funcMap =
      (Fields.cons c m v (doParseFields env expand rest pfx funcMap).1,
       (doParseFields env expand rest pfx funcMap).2.1,
       (doParseFields env expand rest pfx funcMap).2.2) := by
  simp only [doParseFields, hord, Bool.false_eq_true, if_false, hget]
  rcases hrest : doParseFields env expand rest pfx funcMap with ⟨r', errs, ab⟩
  simp

/-- Running the loop over a list of non-aborting fields followed by an
arbitrary tail: every field of the first part is processed
independently, its updated entries and error messages are collected in
declaration order, and the tail behaves as on its own. -/
theorem doParseFields_prefix_ok (env : EnvMap) (expand : String → String)
    (pfx : String) (funcMap : CustomParsers)
    (pre : List (Bool × FieldMeta × Value)) (tail : Fields)
    (h : ∀ e ∈ pre, noAbort env expand e = true) :
    doParseFields env expand (Fields.append (Fields.ofList pre) tail) pfx funcMap =
      (Fields.append
        (Fields.ofList (pre.map (fun e => (processField env expand pfx funcMap e).1)))
        (doParseFields env expand tail pfx funcMap).1,
       (pre.filterMap (fun e => (processField env expand pfx funcMap e).2)) ++
         (doParseFields env expand tail pfx funcMap).2.1,
       (doParseFields env expand tail pfx funcMap).2.2) := by
  induction pre with
  | nil => simp [Fields.ofList, Fields.append]
  | cons e pre ih =>
    rcases e with ⟨c, m, v⟩
    have h1 : noAbort env expand (c, m, v) = true := h _ (List.mem_cons_self _ _)
    have h2 : ∀ x ∈ pre, noAbort env expand x = true :=
      fun x hx => h x (List.mem_cons_of_mem _ hx)
    show doParseFields env expand
        (Fields.cons c m v (Fields.append (Fields.ofList pre) tail)) pfx funcMap = _
    rw [doParseFields_cons_ok env expand pfx funcMap c m v _ h1, ih h2]
    rcases hpf : processField env expand pfx funcMap (c, m, v) with ⟨e', err?⟩
    simp only [List.map_cons, List.filterMap_cons, hpf, Fields.ofList, Fields.consEntry]
    cases err? <;> simp [Fields.append]

/-! ### Characterization helpers for the option loop and the element
parsers -/

/-- Folding the option loop over empty tokens only keeps the
accumulator: the empty option token is skipped. -/
theorem foldl_optStep_blank (env : EnvMap) (key pfx : String)
    (suf : List String) (acc : String × Option String)
    (h : ∀ t ∈ suf, t = "") :
    suf.foldl (optStep env key pfx) acc = acc := by
  induction suf generalizing acc with
  | nil => rfl
  | cons t rest ih =>
    have ht : t = "" := h t (List.mem_cons_self _ _)
    subst ht
    rw [List.foldl_cons]
    exact ih acc (fun x hx => h x (List.mem_cons_of_mem _ hx))

/-- An option token other than the empty one and `required` replaces
the error with the option-not-supported message and keeps the value. -/
theorem optStep_other (env : EnvMap) (key pfx : String)
    (acc : String × Option String) (t : String)
    (h1 : t ≠ "") (h2 : t ≠ "required") :
    optStep env key pfx acc t =
      (acc.1, some ("env tag option " ++ quoteGo t ++ " not supported")) := by
  unfold optStep
  split
  · exact absurd rfl h1
  · exact absurd rfl h2
  · rfl

/-- Lemma: `parseInts` is the elementwise 32-bit integer conversion, in order,
stopping at the first failure. -/
theorem parseInts_eq_mapM : ∀ data : List String,
    parseInts data = data.mapM (fun v => strconv.ParseInt v 32) := by
  intro data
  induction data with
  | nil => rfl
  | cons v rest ih =>
    rw [parseInts, List.mapM_cons _, ih]
    cases strconv.ParseInt v 32 with
    | error e => rfl
    | ok n => cases rest.mapM (fun v => strconv.ParseInt v 32) <;> rfl

/-- Lemma: `parseInt64s` is the elementwise 64-bit integer conversion, in
order, stopping at the first failure. -/
theorem parseInt64s_eq_mapM : ∀ data : List String,
    parseInt64s data = data.mapM (fun v => strconv.ParseInt v 64) := by
  intro data
  induction data with
  | nil => rfl
  | cons v rest ih =>
    rw [parseInt64s, List.mapM_cons _, ih]
    cases strconv.ParseInt v 64 with
    | error e => rfl
    | ok n => cases rest.mapM (fun v => strconv.ParseInt v 64) <;> rfl

/-- Lemma: `parseBools` is the elementwise boolean conversion, in order,
stopping at the first failure. -/
theorem parseBools_eq_mapM : ∀ data : List String,
    parseBools data = data.mapM strconv.ParseBool := by
  intro data
  induction data with
  | nil => rfl
  | cons v rest ih =>
    rw [parseBools, List.mapM_cons _, ih]
    cases strconv.ParseBool v with
    | error e => rfl
    | ok b => cases rest.mapM strconv.ParseBool <;> rfl

/-! ### Claim C1 -/

/-- C1: the recursion into a non-null settable nested record reference
goes through `Parse`, so it uses the EMPTY prefix and an EMPTY custom
converter registry rather than the prefix and registry of the enclosing
call.  Conjunct 1: with prefix `PRE_` and `PRE_KEY` set, the nested
field keyed `KEY` is left untouched.  Conjunct 2: parsing the nested
record directly with prefix `PRE_` does populate it, showing the prefix
was dropped by the recursion.  Conjunct 3: with a custom string
converter registered, the nested string field is populated by the
builtin converter instead.  Conjunct 4: applying `set` with that
registry directly shows what the custom converter would have produced. -/
theorem nested_parse_drops_caller_context :
    (ParseWithPrefix [("PRE_KEY", "42")] id
        (.vPtr (.vStruct (.cons true ⟨"P", "", "", ""⟩
          (.vPtr (.vStruct (.cons true ⟨"KEY", "", "", ""⟩ (.vInt 0) .nil))) .nil)))
        "PRE_" =
      ((.vPtr (.vStruct (.cons true ⟨"P", "", "", ""⟩
          (.vPtr (.vStruct (.cons true ⟨"KEY", "", "", ""⟩ (.vInt 0) .nil))) .nil))),
       none)) ∧
    (doParse [("PRE_KEY", "42")] id
        (.cons true ⟨"KEY", "", "", ""⟩ (.vInt 0) .nil) "PRE_" [] =
      (.cons true ⟨"KEY", "", "", ""⟩ (.vInt 42) .nil, none)) ∧
    (ParseWithFuncs [("KEY", "42")] id
        (.vPtr (.vStruct (.cons true ⟨"P", "", "", ""⟩
          (.vPtr (.vStruct (.cons true ⟨"KEY", "", "", ""⟩ (.vStr "") .nil))) .nil)))
        [(Ty.str, fun s => .ok (.vStr (s ++ "!")))] =
      ((.vPtr (.vStruct (.cons true ⟨"P", "", "", ""⟩
          (.vPtr (.vStruct (.cons true ⟨"KEY", "", "", ""⟩ (.vStr "42") .nil))) .nil))),
       none)) ∧
    (set (.vStr "") ⟨"KEY", "", "", ""⟩ "42"
        [(Ty.str, fun s => .ok (.vStr (s ++ "!")))] =
      (.vStr "42!", none)) :=
  ⟨rfl, rfl, rfl, rfl⟩

/-! ### Claim C2 -/

/-- C2: when no field aborts (no settable non-nil pointer field with a
failing nested parse), the engine visits every field: each entry is
updated independently by its own resolve/skip/convert outcome, the
per-field error messages are collected in declaration order, and the
final outcome is success when there are none, otherwise a single error
whose message is exactly those messages joined by the period-space
separator. -/
theorem doParse_visits_all_and_aggregates (env : EnvMap)
    (expand : String → String) (pfx : String) (funcMap : CustomParsers)
    (entries : List (Bool × FieldMeta × Value))
    (h : ∀ e ∈ entries, noAbort env expand e = true) :
    doParse env expand (Fields.ofList entries) pfx funcMap =
      (Fields.ofList
        (entries.map (fun e => (processField env expand pfx funcMap e).1)),
       if (entries.filterMap
            (fun e => (processField env expand pfx funcMap e).2)).isEmpty
       then none
       else
         some (joinGo
           (entries.filterMap (fun e => (processField env expand pfx funcMap e).2))
           ". ")) := by
  have hnil : doParseFields env expand .nil pfx funcMap = (.nil, [], none) := rfl
  have key := doParseFields_prefix_ok env expand pfx funcMap entries .nil h
  rw [Fields.append_nil, hnil] at key
  simp only [List.append_nil] at key
  rw [Fields.append_nil] at key
  unfold doParse
  rw [key]

/-- Witness for C2: a record with two invalid fields (a malformed
integer and a malformed boolean) and two valid ones; both valid fields
are populated and the error message is the two per-field messages in
declaration order joined by the period-space separator. -/
theorem doParse_visits_all_and_aggregates_witness :
    (∀ e ∈ ([(true, (⟨"A", "", "", ""⟩ : FieldMeta), Value.vInt 0),
             (true, ⟨"B", "", "", ""⟩, Value.vInt 0),
             (true, ⟨"C", "", "", ""⟩, Value.vBool false),
             (true, ⟨"D", "", "", ""⟩, Value.vStr "")] :
        List (Bool × FieldMeta × Value)),
      noAbort [("A", "x"), ("B", "7"), ("C", "zz"), ("D", "hello")] id e = true) ∧
    doParse [("A", "x"), ("B", "7"), ("C", "zz"), ("D", "hello")] id
        (Fields.ofList
          [(true, ⟨"A", "", "", ""⟩, Value.vInt 0),
           (true, ⟨"B", "", "", ""⟩, Value.vInt 0),
           (true, ⟨"C", "", "", ""⟩, Value.vBool false),
           (true, ⟨"D", "", "", ""⟩, Value.vStr "")]) "" [] =
      (Fields.ofList
          [(true, ⟨"A", "", "", ""⟩, Value.vInt 0),
           (true, ⟨"B", "", "", ""⟩, Value.vInt 7),
           (true, ⟨"C", "", "", ""⟩, Value.vBool false),
           (true, ⟨"D", "", "", ""⟩, Value.vStr "hello")],
       some ("strconv.ParseInt: parsing \"x\": invalid syntax. " ++
         "strconv.ParseBool: parsing \"zz\": invalid syntax")) := by
  constructor
  · decide
  · rw [doParse_visits_all_and_aggregates _ _ _ _ _ (by decide)]
    rfl

/-! ### Claim C4 -/

/-- C4: a settable non-nil pointer field whose pointee is not a struct
makes the parse abort at that field with `ErrNotAStructPtr`: the fields
before it have been processed (their mutations persist) but their
collected error messages are discarded, the offending field and all
later fields are untouched, and the single error returned is exactly
`ErrNotAStructPtr`. -/
theorem nonstruct_ptr_field_aborts (env : EnvMap) (expand : String → String)
    (pfx : String) (funcMap : CustomParsers)
    (pre post : List (Bool × FieldMeta × Value)) (m : FieldMeta) (w : Value)
    (hpre : ∀ e ∈ pre, noAbort env expand e = true)
    (hw : Value.isStructVal w = false) :
    doParse env expand
        (Fields.ofList (pre ++ (true, m, Value.vPtr w) :: post)) pfx funcMap =
      (Fields.ofList
        (pre.map (fun e => (processField env expand pfx funcMap e).1) ++
          (true, m, Value.vPtr w) :: post),
       some ErrNotAStructPtr) := by
  have hrej : ParseWithPrefixFuncs env expand (.vPtr w) "" [] =
      (.vPtr w, some ErrNotAStructPtr) :=
    pwpf_reject env expand _ "" [] (by rw [isPtrToStruct_vPtr]; exact hw)
  have htail : doParseFields env expand
      (Fields.ofList ((true, m, Value.vPtr w) :: post)) pfx funcMap =
      (Fields.cons true m (.vPtr w) (Fields.ofList post), [], some ErrNotAStructPtr) := by
    show doParseFields env expand
      (Fields.cons true m (.vPtr w) (Fields.ofList post)) pfx funcMap = _
    have h := doParseFields_cons_abort env expand pfx funcMap true m (.vPtr w)
      (Fields.ofList post) ErrNotAStructPtr (by simp [Value.isNonNilPtr])
      (by rw [hrej])
    rw [hrej] at h
    exact h
  rw [Fields.ofList_append]
  have key := doParseFields_prefix_ok env expand pfx funcMap pre
    (Fields.ofList ((true, m, Value.vPtr w) :: post)) hpre
  rw [htail] at key
  simp only at key
  unfold doParse
  rw [key]
  rw [Fields.ofList_append]
  rfl

/-- Witness for C4: a first field whose conversion fails, then a
settable non-nil pointer-to-integer field, then another field; the
parse returns exactly `ErrNotAStructPtr`, the earlier failure message is
discarded, and the later field is not populated. -/
theorem nonstruct_ptr_field_aborts_witness :
    (∀ e ∈ ([(true, (⟨"A", "", "", ""⟩ : FieldMeta), Value.vInt 0)] :
        List (Bool × FieldMeta × Value)),
      noAbort [("A", "x"), ("B", "7")] id e = true) ∧
    (Value.isStructVal (Value.vInt 1) = false) ∧
    doParse [("A", "x"), ("B", "7")] id
        (Fields.ofList
          ([(true, ⟨"A", "", "", ""⟩, Value.vInt 0)] ++
            (true, (⟨"P", "", "", ""⟩ : FieldMeta), Value.vPtr (Value.vInt 1)) ::
            [(true, ⟨"B", "", "", ""⟩, Value.vInt 0)])) "" [] =
      (Fields.ofList
          [(true, ⟨"A", "", "", ""⟩, Value.vInt 0),
           (true, ⟨"P", "", "", ""⟩, Value.vPtr (Value.vInt 1)),
           (true, ⟨"B", "", "", ""⟩, Value.vInt 0)],
       some ErrNotAStructPtr) := by
  refine ⟨by decide, by decide, ?_⟩
  have h := nonstruct_ptr_field_aborts [("A", "x"), ("B", "7")] id "" []
    [(true, ⟨"A", "", "", ""⟩, Value.vInt 0)]
    [(true, ⟨"B", "", "", ""⟩, Value.vInt 0)]
    ⟨"P", "", "", ""⟩ (Value.vInt 1) (by decide) (by decide)
  exact h

/-! ### Claim C5 -/

/-- C5: every entry point rejects an input that is not a non-nil
pointer to a struct — a non-pointer value, a nil pointer, or a pointer
to a non-struct — immediately with `ErrNotAStructPtr`, leaving the
input unchanged; the outcome does not depend on the environment (it is
never read) nor on the expansion capability. -/
theorem entry_rejects_non_struct_input (env env2 : EnvMap)
    (expand expand2 : String → String) (v : Value) (pfx : String)
    (funcMap : CustomParsers)
    (h : Value.isPtrToStruct v = false) :
    ParseWithPrefixFuncs env expand v pfx funcMap = (v, some ErrNotAStructPtr) ∧
    Parse env expand v = (v, some ErrNotAStructPtr) ∧
    ParseWithPrefix env expand v pfx = (v, some ErrNotAStructPtr) ∧
    ParseWithFuncs env expand v funcMap = (v, some ErrNotAStructPtr) ∧
    ParseWithPrefixFuncs env expand v pfx funcMap =
      ParseWithPrefixFuncs env2 expand2 v pfx funcMap :=
  ⟨pwpf_reject env expand v pfx funcMap h,
   pwpf_reject env expand v "" [] h,
   pwpf_reject env expand v pfx [] h,
   pwpf_reject env expand v "" funcMap h,
   (pwpf_reject env expand v pfx funcMap h).trans
     (pwpf_reject env2 expand2 v pfx funcMap h).symm⟩

/-- Witness for C5: a non-nil pointer to an integer is rejected by
`Parse` with `ErrNotAStructPtr` even though the environment has
values. -/
theorem entry_rejects_non_struct_input_witness :
    (Value.isPtrToStruct (Value.vPtr (Value.vInt 1)) = false) ∧
    Parse [("KEY", "7")] id (Value.vPtr (Value.vInt 1)) =
      (Value.vPtr (Value.vInt 1), some ErrNotAStructPtr) :=
  ⟨by decide,
   (entry_rejects_non_struct_input [("KEY", "7")] [] id id
     (Value.vPtr (Value.vInt 1)) "P_" [] (by decide)).2.1⟩

/-! ### Claim C3 -/

/-- Counterexample to C3 as stated: a field whose option list contains
`required` followed by a further unknown token, with the key absent from
the environment, fails with the option-not-supported error, not with the
required-not-set error — the option loop lets each later token replace
the error of an earlier one. -/
theorem required_not_last_counterexample :
    ("required" ∈ (parseKeyForOption "KEY,required,bogus").2) ∧
    (lookupEnv ([] : EnvMap) ("" ++ (parseKeyForOption "KEY,required,bogus").1) =
      none) ∧
    (get [] id ⟨"KEY,required,bogus", "fallback", "", ""⟩ "" =
      ("", some "env tag option \"bogus\" not supported")) ∧
    ((get [] id ⟨"KEY,required,bogus", "fallback", "", ""⟩ "").2 ≠
      some "required environment variable \"KEY\" is not set") := by
  refine ⟨by decide, by decide, by decide, by decide⟩

/-- C3 amended: for every field whose option list ends in `required`
(followed at most by empty tokens) and whose effective key is absent
from the environment, resolution fails with the required-not-set error
citing the declared key, whatever default literal the field declares
(the default is ignored). -/
theorem required_last_ignores_default (env : EnvMap) (expand : String → String)
    (field : FieldMeta) (pfx : String) (pre suf : List String)
    (hopts : (parseKeyForOption field.envTag).2 = pre ++ "required" :: suf)
    (hsuf : ∀ t ∈ suf, t = "")
    (habs : lookupEnv env (pfx ++ (parseKeyForOption field.envTag).1) = none) :
    get env expand field pfx =
      ("", some ("required environment variable " ++
        quoteGo (parseKeyForOption field.envTag).1 ++ " is not set")) := by
  simp only [get]
  rw [hopts, List.foldl_append, List.foldl_cons,
    foldl_optStep_blank env _ pfx suf _ hsuf]
  show getRequired env (parseKeyForOption field.envTag).1 pfx = _
  simp only [getRequired, habs]

/-- Witness for C3 amended: a field tagged `KEY,required` with a
declared default, key absent, fails with the required-not-set message
and an empty value. -/
theorem required_last_ignores_default_witness :
    ((parseKeyForOption "KEY,required").2 = [] ++ "required" :: []) ∧
    (lookupEnv [("OTHER", "1")] ("P_" ++ (parseKeyForOption "KEY,required").1) =
      none) ∧
    (get [("OTHER", "1")] id ⟨"KEY,required", "fallback", "", ""⟩ "P_" =
      ("", some "required environment variable \"KEY\" is not set")) := by
  refine ⟨by decide, by decide, ?_⟩
  exact required_last_ignores_default [("OTHER", "1")] id
    ⟨"KEY,required", "fallback", "", ""⟩ "P_" [] [] (by decide) (by decide)
    (by decide)

/-! ### Claim C6 -/

/-- Counterexample to C6 as stated: a field whose option list contains
the unknown token `bogus` followed by `required`, with the key set,
resolves successfully — the later `required` token overwrites the
option-not-supported error. -/
theorem unknown_option_swallowed_counterexample :
    ("bogus" ∈ (parseKeyForOption "KEY,bogus,required").2) ∧
    ("bogus" ≠ "required") ∧ ("bogus" ≠ "") ∧
    (get [("KEY", "x")] id ⟨"KEY,bogus,required", "", "", ""⟩ "" =
      ("x", none)) := by
  refine ⟨by decide, by decide, by decide, by decide⟩

/-- C6 amended: for every field whose option list ends in an
unrecognized token (followed at most by empty tokens), resolution fails
with the option-not-supported error naming that token. -/
theorem unknown_last_option_fails (env : EnvMap) (expand : String → String)
    (field : FieldMeta) (pfx : String) (pre : List String) (t : String)
    (suf : List String)
    (ht1 : t ≠ "") (ht2 : t ≠ "required")
    (hopts : (parseKeyForOption field.envTag).2 = pre ++ t :: suf)
    (hsuf : ∀ s ∈ suf, s = "") :
    (get env expand field pfx).2 =
      some ("env tag option " ++ quoteGo t ++ " not supported") := by
  simp only [get]
  rw [hopts, List.foldl_append, List.foldl_cons,
    optStep_other env _ pfx _ t ht1 ht2,
    foldl_optStep_blank env _ pfx suf _ hsuf]

/-- Witness for C6 amended: a field tagged `KEY,bogus` fails with the
message naming `bogus` even though the key is set. -/
theorem unknown_last_option_fails_witness :
    ("bogus" ≠ "") ∧ ("bogus" ≠ "required") ∧
    ((parseKeyForOption "KEY,bogus").2 = [] ++ "bogus" :: []) ∧
    ((get [("KEY", "x")] id ⟨"KEY,bogus", "", "", ""⟩ "").2 =
      some "env tag option \"bogus\" not supported") := by
  refine ⟨by decide, by decide, by decide, ?_⟩
  exact unknown_last_option_fails [("KEY", "x")] id ⟨"KEY,bogus", "", "", ""⟩ ""
    [] "bogus" [] (by decide) (by decide) (by decide) (by decide)

/-! ### Claim C8 -/

/-- Counterexample to C8 as stated: a field whose option list contains
`required` followed by a further unknown token, with the key set to the
empty string, does NOT succeed: the later token replaces the successful
`required` outcome with an option-not-supported error, which the loop
records for the field. -/
theorem required_empty_with_trailing_option_counterexample :
    ("required" ∈ (parseKeyForOption "KEY,required,bogus").2) ∧
    (lookupEnv [("KEY", "")] ("" ++ (parseKeyForOption "KEY,required,bogus").1) =
      some "") ∧
    ((get [("KEY", "")] id ⟨"KEY,required,bogus", "", "", ""⟩ "").2 =
      some "env tag option \"bogus\" not supported") ∧
    doParseFields [("KEY", "")] id
        (.cons true ⟨"KEY,required,bogus", "", "", ""⟩ (Value.vStr "old") .nil)
        "" [] =
      (.cons true ⟨"KEY,required,bogus", "", "", ""⟩ (Value.vStr "old") .nil,
       ["env tag option \"bogus\" not supported"], none) := by
  refine ⟨by decide, by decide, by decide, by rfl⟩

/-- C8 amended: for every field whose option list ends in `required`
(followed at most by empty tokens) and whose effective key is set to
the empty string in the environment, resolution succeeds with the empty
raw value, and the loop records no error for the field and leaves it at
its current value (an explicitly empty value satisfies the required
option and the empty result skips conversion). -/
theorem required_set_empty_field_ok (env : EnvMap) (expand : String → String)
    (field : FieldMeta) (pfx : String) (pre suf : List String)
    (funcMap : CustomParsers) (c : Bool) (v : Value) (rest : Fields)
    (hopts : (parseKeyForOption field.envTag).2 = pre ++ "required" :: suf)
    (hsuf : ∀ t ∈ suf, t = "")
    (hset : lookupEnv env (pfx ++ (parseKeyForOption field.envTag).1) = some "")
    (hord : (Value.isNonNilPtr v && c) = false) :
    get env expand field pfx = ("", none) ∧
    doParseFields env expand (.cons c field v rest) pfx funcMap =
      (Fields.cons c field v (doParseFields env expand rest pfx funcMap).1,
       (doParseFields env expand rest pfx funcMap).2.1,
       (doParseFields env expand rest pfx funcMap).2.2) := by
  have hg : get env expand field pfx = ("", none) := by
    simp only [get]
    rw [hopts, List.foldl_append, List.foldl_cons,
      foldl_optStep_blank env _ pfx suf _ hsuf]
    show getRequired env (parseKeyForOption field.envTag).1 pfx = _
    simp only [getRequired, hset]
  exact ⟨hg, doParseFields_skip env expand pfx funcMap c field v rest hord hg⟩

/-- Witness for C8 amended: a field tagged `KEY,required` with a
declared default and `KEY` set to the empty string produces no error
and keeps its current value. -/
theorem required_set_empty_field_ok_witness :
    ((parseKeyForOption "KEY,required").2 = [] ++ "required" :: []) ∧
    (lookupEnv [("KEY", "")] ("" ++ (parseKeyForOption "KEY,required").1) =
      some "") ∧
    ((Value.isNonNilPtr (Value.vInt 9) && true) = false) ∧
    (get [("KEY", "")] id ⟨"KEY,required", "dflt", "", ""⟩ "" = ("", none)) ∧
    doParseFields [("KEY", "")] id
        (.cons true ⟨"KEY,required", "dflt", "", ""⟩ (Value.vInt 9) .nil) "" [] =
      (.cons true ⟨"KEY,required", "dflt", "", ""⟩ (Value.vInt 9) .nil,
       [], none) := by
  refine ⟨by decide, by decide, by decide, ?_, ?_⟩
  · exact (required_set_empty_field_ok [("KEY", "")] id
      ⟨"KEY,required", "dflt", "", ""⟩ "" [] [] [] true (Value.vInt 9) .nil
      (by decide) (by decide) (by decide) (by decide)).1
  · exact (required_set_empty_field_ok [("KEY", "")] id
      ⟨"KEY,required", "dflt", "", ""⟩ "" [] [] [] true (Value.vInt 9) .nil
      (by decide) (by decide) (by decide) (by decide)).2

/-! ### Claim C9 -/

/-- C9: a field (outside the pointer branch) whose resolution succeeds
with the empty string is skipped: the loop records no error for it,
attempts no conversion, and leaves the field at its current value; the
rest of the loop is unaffected. -/
theorem empty_resolution_leaves_field (env : EnvMap) (expand : String → String)
    (pfx : String) (funcMap : CustomParsers) (c : Bool) (m : FieldMeta)
    (v : Value) (rest : Fields)
    (hord : (Value.isNonNilPtr v && c) = false)
    (hget : get env expand m pfx = ("", none)) :
    doParseFields env expand (.cons c m v rest) pfx funcMap =
      (Fields.cons c m v (doParseFields env expand rest pfx funcMap).1,
       (doParseFields env expand rest pfx funcMap).2.1,
       (doParseFields env expand rest pfx funcMap).2.2) :=
  doParseFields_skip env expand pfx funcMap c m v rest hord hget

/-- Witness for C9: a field whose key is unset and which declares no
default resolves to the empty string and is left untouched with no
error. -/
theorem empty_resolution_leaves_field_witness :
    ((Value.isNonNilPtr (Value.vStr "keep") && true) = false) ∧
    (get [("OTHER", "1")] id ⟨"NOPE", "", "", ""⟩ "" = ("", none)) ∧
    doParseFields [("OTHER", "1")] id
        (.cons true ⟨"NOPE", "", "", ""⟩ (Value.vStr "keep") .nil) "" [] =
      (.cons true ⟨"NOPE", "", "", ""⟩ (Value.vStr "keep") .nil, [], none) := by
  refine ⟨by decide, by decide, ?_⟩
  exact empty_resolution_leaves_field [("OTHER", "1")] id "" [] true
    ⟨"NOPE", "", "", ""⟩ (Value.vStr "keep") .nil (by decide) (by decide)

/-! ### Claim C7 -/

/-- C7: for every sequence-typed field of the modelled universe,
`handleSlice` splits the raw string on the declared separator (the
comma when none is declared) preserving empty substrings, converts the
substrings in order with the scalar converter of the element type,
failing the whole field at the first element failure, and on success
yields the ordered sequence of converted elements; string sequences are
the plain split.  The closing conjuncts check the round-trip examples
`1,2,3` with the default separator and `1;2;3` with separator `;`, the
preservation of empty substrings, the first-failure behaviour, and the
end-to-end assignment through `set` with a declared separator. -/
theorem sequence_fields_split_and_convert :
    (∀ (old : List Int) (value separator : String),
      handleSlice (Value.vIntSlice old) value separator =
        Except.map Value.vIntSlice
          ((splitGo value (if separator = "" then "," else separator)).mapM
            (fun v => strconv.ParseInt v 32))) ∧
    (∀ (old : List Int) (value separator : String),
      handleSlice (Value.vInt64Slice old) value separator =
        Except.map Value.vInt64Slice
          ((splitGo value (if separator = "" then "," else separator)).mapM
            (fun v => strconv.ParseInt v 64))) ∧
    (∀ (old : List Bool) (value separator : String),
      handleSlice (Value.vBoolSlice old) value separator =
        Except.map Value.vBoolSlice
          ((splitGo value (if separator = "" then "," else separator)).mapM
            strconv.ParseBool)) ∧
    (∀ (old : List String) (value separator : String),
      handleSlice (Value.vStrSlice old) value separator =
        .ok (Value.vStrSlice
          (splitGo value (if separator = "" then "," else separator)))) ∧
    (handleSlice (Value.vIntSlice []) "1,2,3" "" = .ok (Value.vIntSlice [1, 2, 3])) ∧
    (handleSlice (Value.vIntSlice []) "1;2;3" ";" = .ok (Value.vIntSlice [1, 2, 3])) ∧
    (splitGo "a,,b" "," = ["a", "", "b"]) ∧
    (handleSlice (Value.vIntSlice []) "1,x,3" "" =
      .error "strconv.ParseInt: parsing \"x\": invalid syntax") ∧
    (set (Value.vIntSlice []) ⟨"K", "", "", ";"⟩ "1;2;3" [] =
      (Value.vIntSlice [1, 2, 3], none)) := by
  refine ⟨?_, ?_, ?_, ?_, rfl, rfl, rfl, rfl, rfl⟩
  · intro old value separator
    simp only [handleSlice]
    rw [parseInts_eq_mapM]
    cases h : (splitGo value (if separator = "" then "," else separator)).mapM
      (fun v => strconv.ParseInt v 32) <;> rfl
  · intro old value separator
    simp only [handleSlice]
    rw [parseInt64s_eq_mapM]
    cases h : (splitGo value (if separator = "" then "," else separator)).mapM
      (fun v => strconv.ParseInt v 64) <;> rfl
  · intro old value separator
    simp only [handleSlice]
    rw [parseBools_eq_mapM]
    cases h : (splitGo value (if separator = "" then "," else separator)).mapM
      strconv.ParseBool <;> rfl
  · intro old value separator
    rfl

/-! ### Claim C10 -/

/-- C10: `MustGet` returns the environment value whenever the key is
set (even to the empty string), panics when the key is unset, and
ignores its `defaultValue` parameter entirely: the result is the same
for any two defaults, so the default is never returned. -/
theorem MustGet_ignores_defaultValue (env : EnvMap) (key d1 d2 : String) :
    (∀ v, lookupEnv env key = some v → MustGet env key d1 = .value v) ∧
    (lookupEnv env key = none →
      MustGet env key d1 =
        .panicked ("expected environment variable " ++ quoteGo key ++
          " does not exist")) ∧
    MustGet env key d1 = MustGet env key d2 := by
  refine ⟨fun v hv => ?_, fun hn => ?_, rfl⟩
  · simp [MustGet, hv]
  · simp [MustGet, hn]

/-- Witness for C10: the value is returned when the key is set to the
empty string, and the panic fires when the key is unset, for a
non-trivial default argument in both cases. -/
theorem MustGet_ignores_defaultValue_witness :
    (lookupEnv [("K", "")] "K" = some "") ∧
    (MustGet [("K", "")] "K" "dflt" = .value "") ∧
    (lookupEnv ([] : EnvMap) "K" = none) ∧
    (MustGet [] "K" "dflt" =
      .panicked "expected environment variable \"K\" does not exist") := by
  refine ⟨by decide, ?_, by decide, ?_⟩
  · exact (MustGet_ignores_defaultValue [("K", "")] "K" "dflt" "other").1 ""
      (by decide)
  · exact (MustGet_ignores_defaultValue [] "K" "dflt" "other").2.1 (by decide)

end Env
